import Mathlib

/-!
Verification of the dense matrix core of the MRPT math library against its
specification.  The repository sources available here contain only the unit
tests (`libs/math/src/matrix_ops3_unittest.cpp`); the matrix library itself
(storage, determinant, Cholesky, quadratic forms) is therefore modelled from
the specification, faithfully to its words (§3, §4.1–§4.5).

Modelling conventions:
* a matrix is rows, cols and a flat row-major buffer (spec §3); the invariant
  `data.length = rows * cols` is the predicate `Mat.wf`;
* `double` arithmetic is modelled exactly: by `ℚ` where no square root is
  needed (determinant, add/subtract/transpose, quadratic forms) and by `ℝ`
  for the Cholesky module; the "small numeric tolerance / epsilon" the spec
  mentions for the Cholesky square-root test and the determinant pivot test
  exists to absorb floating-point rounding, so in this exact model it is
  taken as zero (a pivot "below epsilon" is a zero pivot, a value under the
  square root "non-positive within tolerance" is a non-positive value);
* reported errors (dimension mismatch, non-positive-definite input) are
  modelled by `Option`: `none` is the reported error, `some` a normal result.
-/

/-- Modelled from the spec (§3 Data Model): a matrix is `rows`, `cols` and a
contiguous row-major buffer of numeric values. -/
structure Mat (α : Type) where
  rows : ℕ
  cols : ℕ
  data : List α
deriving DecidableEq

/-- The buffer invariant of the spec (§3): the buffer length always equals
`rows * cols`. -/
abbrev Mat.wf {α : Type} (A : Mat α) : Prop := A.data.length = A.rows * A.cols

/-- Modelled from the spec (§4.1): element read at `(row, column)` through the
row-major index `i * cols + j`; reads outside the buffer return the default
value `0` (the spec's checked accessor reports those; no claim exercises an
out-of-range read). -/
def Mat.get {α : Type} [Zero α] (A : Mat α) (i j : ℕ) : α :=
  A.data.getD (i * A.cols + j) 0

/-- Build an `r × c` matrix whose `(i, j)` entry is `f i j`, stored row-major
as in the spec (§3). -/
def Mat.build {α : Type} (r c : ℕ) (f : ℕ → ℕ → α) : Mat α :=
  ⟨r, c, (List.range (r * c)).map (fun k => f (k / c) (k % c))⟩

/-- Modelled from the spec (§4.2): transpose returns a new matrix with swapped
dimensions, entry `result[j][i] = source[i][j]`. -/
def Mat.transpose {α : Type} [Zero α] (A : Mat α) : Mat α :=
  Mat.build A.cols A.rows (fun i j => A.get j i)

/-- Modelled from the spec (§4.2): elementwise add; a dimension mismatch is a
reported dimension error (`none`). -/
def Mat.add {α : Type} [Zero α] [Add α] (A B : Mat α) : Option (Mat α) :=
  if A.rows = B.rows ∧ A.cols = B.cols then
    some (Mat.build A.rows A.cols (fun i j => A.get i j + B.get i j))
  else none

/-- Modelled from the spec (§4.2): elementwise subtract; a dimension mismatch
is a reported dimension error (`none`). -/
def Mat.sub {α : Type} [Zero α] [Sub α] (A B : Mat α) : Option (Mat α) :=
  if A.rows = B.rows ∧ A.cols = B.cols then
    some (Mat.build A.rows A.cols (fun i j => A.get i j - B.get i j))
  else none

/-- Modelled from the spec (§4.2): `sum_abs`, the sum of the absolute values
of all buffer elements, used by the tests as an aggregate error metric. -/
def Mat.sum_abs {α : Type} [Lattice α] [AddGroup α] (A : Mat α) : α :=
  A.data.foldr (fun x s => |x| + s) 0

/-- Generic matrix multiplication (row-by-column inner products); the tests
use it as the reference computation for the quadratic-form module (§8). -/
def Mat.mul {α : Type} [Zero α] [Mul α] [AddCommMonoid α] (A B : Mat α) : Mat α :=
  Mat.build A.rows B.cols (fun i j => ∑ k in Finset.range A.cols, A.get i k * B.get k j)

/-- Index (first occurrence) of the element of largest absolute value in a
list; implements the spec's partial pivoting choice (§4.3: "select the pivot
row maximizing the absolute value in the current column"). -/
def pivotIndex {α : Type} [LinearOrderedField α] (l : List α) : ℕ :=
  l.enum.foldl (fun b p => if |p.2| > |l.getD b 0| then p.1 else b) 0

/-- Swap rows `0` and `p` of a list of rows (the spec's "swap it into place",
§4.3). -/
def swapRows {α : Type} (rows : List (List α)) (p : ℕ) : List (List α) :=
  (rows.set 0 (rows.getD p [])).set p (rows.getD 0 [])

/-- One elimination update: subtract `(head r / pivot)` times the pivot row
from row `r` and drop the (now zero) leading entry (§4.3). -/
def elimRow {α : Type} [LinearOrderedField α] (pr : List α) (pv : α) (r : List α) : List α :=
  (List.zipWith (fun a b => a - (r.headD 0 / pv) * b) r pr).drop 1

/-- Modelled from the spec (§4.3): Gaussian elimination with partial pivoting,
accumulating the determinant as the signed product of the pivots; a zero
pivot (the exact-arithmetic reading of "pivot magnitude below a small
epsilon") makes the determinant exactly zero.  The first argument is the
(structurally decreasing) number of remaining elimination steps. -/
def detElimN {α : Type} [LinearOrderedField α] : ℕ → List (List α) → α
  | 0, _ => 1
  | n + 1, rows =>
    let p := pivotIndex (rows.map (fun r => r.headD 0))
    let rows2 := swapRows rows p
    let pr := rows2.headD []
    let pv := pr.headD 0
    if pv = 0 then 0
    else (if p = 0 then (1 : α) else -1) * pv * detElimN n ((rows2.drop 1).map (elimRow pr pv))

/-- Whether the elimination of `detElimN` encounters a zero pivot at some
step (the spec's singular-matrix degeneracy, §4.3/§7). -/
def elimHitsZeroN {α : Type} [LinearOrderedField α] : ℕ → List (List α) → Bool
  | 0, _ => false
  | n + 1, rows =>
    let p := pivotIndex (rows.map (fun r => r.headD 0))
    let rows2 := swapRows rows p
    let pr := rows2.headD []
    let pv := pr.headD 0
    if pv = 0 then true
    else elimHitsZeroN n ((rows2.drop 1).map (elimRow pr pv))

/-- The matrix as a list of its rows. -/
def Mat.rowsList {α : Type} [Zero α] (A : Mat α) : List (List α) :=
  (List.range A.rows).map (fun i => (List.range A.cols).map (fun j => A.get i j))

/-- Modelled from the spec (§4.3): determinant of a square matrix — the single
element for size 1, the closed form `a00*a11 - a01*a10` for size 2, and
pivoted Gaussian elimination for larger sizes. -/
def Mat.det {α : Type} [LinearOrderedField α] (A : Mat α) : α :=
  if A.rows = 1 then A.get 0 0
  else if A.rows = 2 then A.get 0 0 * A.get 1 1 - A.get 0 1 * A.get 1 0
  else detElimN A.rows A.rowsList

/-- The determinant computation runs the elimination path (size at least 3)
and encounters a zero pivot there. -/
abbrev Mat.detHitsZeroPivot {α : Type} [LinearOrderedField α] (A : Mat α) : Prop :=
  3 ≤ A.rows ∧ elimHitsZeroN A.rows A.rowsList = true

/-- Modelled from the spec (§4.5): `multiply_HCHt(H, C) = H · C · Hᵗ`; a
dimension mismatch (columns of `H` different from the row/column count of the
square `C`) is a reported dimension error (`none`). -/
def multiply_HCHt {α : Type} [LinearOrderedField α] (H C : Mat α) : Option (Mat α) :=
  if H.cols = C.rows ∧ C.rows = C.cols then
    some (Mat.build H.rows H.rows (fun i j =>
      ∑ k in Finset.range H.cols, ∑ l in Finset.range H.cols,
        H.get i k * C.get k l * H.get j l))
  else none

/-- Modelled from the spec (§4.5): the scalar specialization of
`multiply_HCHt` for a single-row `H`, returning the one resulting scalar
directly. -/
def multiply_HCHt_scalar {α : Type} [LinearOrderedField α] (H C : Mat α) : α :=
  ∑ k in Finset.range H.cols, ∑ l in Finset.range H.cols,
    H.get 0 k * C.get k l * H.get 0 l

/-- The index of the row of largest absolute leading entry, fixed-size code
path (first occurrence, as in `pivotIndex`). -/
def pivotF {n : ℕ} {α : Type} [LinearOrderedField α] (A : Fin (n + 1) → Fin (n + 1) → α) :
    Fin (n + 1) :=
  (List.finRange (n + 1)).foldl (fun b i => if |A i 0| > |A b 0| then i else b) 0

/-- Swap rows `0` and `p`, fixed-size code path. -/
def swapF {n : ℕ} {α : Type} (A : Fin (n + 1) → Fin (n + 1) → α) (p : Fin (n + 1)) :
    Fin (n + 1) → Fin (n + 1) → α :=
  fun i j => A (if i = 0 then p else if i = p then 0 else i) j

/-- Pivoted elimination on the fixed-size representation (the compile-time
sized code path of §9); same algorithm as `detElimN`, independent storage. -/
def detFixAux {α : Type} [LinearOrderedField α] : (n : ℕ) → (Fin n → Fin n → α) → α
  | 0, _ => 1
  | n + 1, A =>
    let p := pivotF A
    let B := swapF A p
    let pv := B 0 0
    if pv = 0 then 0
    else (if p = 0 then (1 : α) else -1) * pv *
      detFixAux n (fun i j => B i.succ j.succ - (B i.succ 0 / pv) * B 0 j.succ)

/-- Modelled from the spec (§4.3, §9): the determinant through the fixed-size
code path — one coherent contract with `Mat.det`, computed over the
compile-time-sized storage (`Fin`-indexed functions). -/
def detFix {α : Type} [LinearOrderedField α] : {n : ℕ} → (Fin n → Fin n → α) → α
  | 0, _ => 1
  | 1, A => A 0 0
  | 2, A => A 0 0 * A 1 1 - A 0 1 * A 1 0
  | n + 3, A => detFixAux (n + 3) A

/-- Modelled from the spec (§4.4): the entries of the Cholesky factor by the
standard sequential formula — `L[j][j] = sqrt(A[j][j] - Σ_{k<j} L[j][k]^2)`,
`L[i][j] = (A[i][j] - Σ_{k<j} L[i][k]*L[j][k]) / L[j][j]` for `i > j`, and
zero above the diagonal.  Defined for arbitrary entry functions; only the
lower triangle of `A` is read. -/
noncomputable def cholL (A : ℕ → ℕ → ℝ) (i j : ℕ) : ℝ :=
  if i < j then 0
  else if i = j then
    Real.sqrt (A j j - ∑ k in (Finset.range j).attach, (cholL A j k.1) ^ 2)
  else
    (A i j - ∑ k in (Finset.range j).attach, cholL A i k.1 * cholL A j k.1) / cholL A j j
termination_by 2 * j + (if j < i then 1 else 0)
decreasing_by
all_goals
  first
  | (rename_i hk; have hk2 := hk.2; simp only [Finset.mem_range] at hk2; split_ifs <;> omega)
  | (rename_i k; have hk2 := k.2; simp only [Finset.mem_range] at hk2; split_ifs <;> omega)
  | (split_ifs <;> omega)

/-- The value under the square root at column `j` of the Cholesky recursion
(the quantity whose sign decides the spec's §4.4 failure mode). -/
noncomputable def cholD (A : ℕ → ℕ → ℝ) (j : ℕ) : ℝ :=
  A j j - ∑ k in Finset.range j, (cholL A j k) ^ 2

/-- A square matrix equal to its transpose on all stored entries. -/
def Mat.IsSymm {α : Type} [Zero α] (A : Mat α) : Prop :=
  ∀ i j, i < A.rows → j < A.rows → A.get i j = A.get j i

/-- Modelled from the spec (§3): a symmetric positive-definite matrix, stated
through the standard equivalent quadratic-form characterization (symmetric
with `xᵗAx > 0` for every nonzero vector `x`), the form in which positive
eigenvalues are used by the module's contract. -/
def Mat.PosDef (M : Mat ℝ) : Prop :=
  M.rows = M.cols ∧ M.IsSymm ∧
  ∀ x : ℕ → ℝ, (∀ i, M.rows ≤ i → x i = 0) → (∃ i, i < M.rows ∧ x i ≠ 0) →
    0 < ∑ i in Finset.range M.rows, ∑ j in Finset.range M.rows, x i * M.get i j * x j

open Classical in
/-- Modelled from the spec (§4.4): `chol(A)` returns the lower-triangular
factor when every value under a square root stays positive, and reports the
distinct Non-Positive-Definite error (`none`) otherwise; the numeric
tolerance of the failure test is zero in this exact-arithmetic model. -/
noncomputable def Mat.chol (A : Mat ℝ) : Option (Mat ℝ) :=
  if A.rows = A.cols ∧ ∀ j, j < A.rows → 0 < cholD A.get j then
    some (Mat.build A.rows A.rows (fun i j => cholL A.get i j))
  else none

/-- The backward-substitution vector used in the positive-definiteness
argument: `cvec A j` solves the upper-triangular system `(L restricted to
columns below j)ᵗ x = 0` with `x j = 1` and `x m = 0` for `m > j`. -/
noncomputable def cvec (A : ℕ → ℕ → ℝ) (j m : ℕ) : ℝ :=
  if j < m then 0
  else if m = j then 1
  else -(∑ i in (Finset.Ioc m j).attach, cholL A i.1 m * cvec A j i.1) / cholL A m m
termination_by j - m
decreasing_by
  have h3 := i.2
  simp only [Finset.mem_Ioc] at h3
  omega

/-- Entrywise embedding of an exact rational matrix into the real matrices
(the literal `double` test data is exact decimal fractions). -/
def matCast (A : Mat ℚ) : Mat ℝ :=
  ⟨A.rows, A.cols, A.data.map Rat.cast⟩

/-- The exact-rational LDL certificate equations: `A = L · diag(D) · Lᵗ`
entrywise, checked over `ℚ` by computation. -/
abbrev ldlOK (Aq Lq : Mat ℚ) (Dq : List ℚ) : Prop :=
  ∀ i < Aq.rows, ∀ j < Aq.rows,
    Aq.get i j = ∑ k in Finset.range Aq.rows, Lq.get i k * Dq.getD k 0 * Lq.get j k

/-- Shape side conditions of an LDL certificate: `L` unit lower triangular
and `D` positive, checked over `ℚ` by computation. -/
abbrev ldlShapeOK (Lq : Mat ℚ) (Dq : List ℚ) : Prop :=
  (∀ i < Lq.rows, ∀ j < Lq.rows, i < j → Lq.get i j = 0) ∧
  (∀ i < Lq.rows, Lq.get i i = 1) ∧
  (∀ k < Lq.rows, 0 < Dq.getD k 0)

/-- Flat data of the 2×2 determinant calibration matrix (§8). -/
def detDat2q : List ℚ :=
  [(8 : ℚ)/10, (-3 : ℚ)/10, (-7 : ℚ)/10, (1 : ℚ)/10]

/-- Flat data of the 3×3 determinant calibration matrix (§8). -/
def detDat3q : List ℚ :=
  [(-33304 : ℚ)/100000, (-20585 : ℚ)/100000, (62026 : ℚ)/1000000000,
   (14631 : ℚ)/10000, (60985 : ℚ)/100000, (23746 : ℚ)/10000,
   (-36451 : ℚ)/100000, (48169 : ℚ)/100000, (-84419 : ℚ)/100000]

/-- Flat data of the 4×4 determinant calibration matrix (§8). -/
def detDat4q : List ℚ :=
  [(773931 : ℚ)/1000000, (-336130 : ℚ)/1000000, (1131764 : ℚ)/1000000, (385890 : ℚ)/1000000,
   (1374906 : ℚ)/1000000, (-540629 : ℚ)/1000000, (-952902 : ℚ)/1000000, (659769 : ℚ)/1000000,
   (-387254 : ℚ)/1000000, (-1557355 : ℚ)/1000000, (139683 : ℚ)/1000000, (-2056635 : ℚ)/1000000,
   (-750078 : ℚ)/1000000, (-653811 : ℚ)/1000000, (872027 : ℚ)/1000000, (217554 : ℚ)/1000000]

/-- 2×2 determinant calibration matrix, dynamic-size path (test `det_2x2_dyn`). -/
def detA2q : Mat ℚ := ⟨2, 2, detDat2q⟩

/-- 3×3 determinant calibration matrix, dynamic-size path (test `det_3x3_dyn`). -/
def detA3q : Mat ℚ := ⟨3, 3, detDat3q⟩

/-- 4×4 determinant calibration matrix, dynamic-size path (test `det_4x4_dyn`). -/
def detA4q : Mat ℚ := ⟨4, 4, detDat4q⟩

/-- The same 3×3 calibration data held in fixed-size storage
(test `det_3x3_fix` builds `CMatrixDouble33` from the same flat array). -/
def detA3f : Fin 3 → Fin 3 → ℚ := fun i j => detDat3q.getD (i.1 * 3 + j.1) 0

/-- The same 4×4 calibration data held in fixed-size storage
(test `det_4x4_fix` builds `CMatrixDouble44` from the same flat array). -/
def detA4f : Fin 4 → Fin 4 → ℚ := fun i j => detDat4q.getD (i.1 * 4 + j.1) 0

/-- The 3×2 matrix `H` of the quadratic-form test `HCHt_3x2_2x2_2x3`. -/
def hchtHq : Mat ℚ :=
  ⟨3, 2, [(2 : ℚ)/10, (-3 : ℚ)/10, (1 : ℚ)/10, (9 : ℚ)/10, (-7 : ℚ)/100, (12 : ℚ)/10]⟩

/-- The 2×2 SPD matrix `C` of the quadratic-form tests. -/
def hchtCq : Mat ℚ :=
  ⟨2, 2, [(8 : ℚ)/10, (-1 : ℚ)/10, (-1 : ℚ)/10, (8 : ℚ)/10]⟩

/-- The literal 3×3 reference result `R_REAL` of test `HCHt_3x2_2x2_2x3`. -/
def hchtRrealq : Mat ℚ :=
  ⟨3, 3, [(116 : ℚ)/1000, (-215 : ℚ)/1000, (-3253 : ℚ)/10000,
    (-215 : ℚ)/1000, (638 : ℚ)/1000, (8527 : ℚ)/10000,
    (-3253 : ℚ)/10000, (8527 : ℚ)/10000, (117272 : ℚ)/100000]⟩

/-- The 1×2 row vector `H` of the scalar quadratic-form test
`HCHt_scalar_1x2_2x2_2x1`. -/
def hchtH1q : Mat ℚ := ⟨1, 2, [(2 : ℚ)/10, (-3 : ℚ)/10]⟩

/-- A non-symmetric 2×2 matrix whose lower triangle agrees with the identity;
used to probe the Cholesky error behaviour on non-symmetric input. -/
def nonsymAq : Mat ℚ := ⟨2, 2, [1, 5, 0, 1]⟩

/-- The negated 2×2 identity: symmetric and definitely not positive definite. -/
def negIdq : Mat ℚ := ⟨2, 2, [-1, 0, 0, -1]⟩

/-- The 2×2 identity matrix with its trivial LDL data, used as a concrete SPD
input. -/
def id2q : Mat ℚ := ⟨2, 2, [1, 0, 0, 1]⟩

/-- A singular 3×3 matrix (first column zero): partial pivoting meets a zero
pivot at the first elimination step. -/
def singular3q : Mat ℚ := ⟨3, 3, [0, 1, 2, 0, 3, 4, 0, 5, 6]⟩

/-- D-list of the trivial LDL factorization of the identity. -/
def id2Dq : List ℚ := [1, 1]

def cholA2q : Mat ℚ :=
 ⟨2, 2, [
  (5363855089 : ℚ)/5000000000,
  (6393375593 : ℚ)/10000000000,
  (6393375593 : ℚ)/10000000000,
  (206555493 : ℚ)/250000000]⟩

def cholL2q : Mat ℚ :=
 ⟨2, 2, [
  (1 : ℚ),
  (0 : ℚ),
  (6393375593 : ℚ)/10727710178,
  (1 : ℚ)]⟩

def cholD2q : List ℚ := [
  (5363855089 : ℚ)/5000000000,
  (47759447109948208511 : ℚ)/107277101780000000000]

def cholA3q : Mat ℚ :=
 ⟨3, 3, [
  (16108732079889 : ℚ)/31250000000000,
  (208180909074809 : ℚ)/250000000000000,
  (49938307649147 : ℚ)/200000000000000,
  (208180909074809 : ℚ)/250000000000000,
  (700540698753467 : ℚ)/500000000000000,
  (77107871225451 : ℚ)/200000000000000,
  (49938307649147 : ℚ)/200000000000000,
  (77107871225451 : ℚ)/200000000000000,
  (128633962591437 : ℚ)/1000000000000000]⟩

def cholL3q : Mat ℚ :=
 ⟨3, 3, [
  (1 : ℚ),
  (0 : ℚ),
  (0 : ℚ),
  (208180909074809 : ℚ)/128869856639112,
  (1 : ℚ),
  (0 : ℚ),
  (249691538245735 : ℚ)/515479426556448,
  (-208782715220877587205272005 : ℚ)/654545020326337155592914244,
  (1 : ℚ)]⟩

def cholD3q : List ℚ := [
  (16108732079889 : ℚ)/31250000000000,
  (1799998805897427177880514171 : ℚ)/32217464159778000000000000000,
  (2620985282527303394005623066347093100131 : ℚ)/1309090040652674311185828488000000000000000]

def cholA10q : Mat ℚ :=
 ⟨10, 10, [
  (5791133667 : ℚ)/2000000000,
  (23041932983 : ℚ)/10000000000,
  (3800476217 : ℚ)/2000000000,
  (4498289663 : ℚ)/2500000000,
  (4614049307 : ℚ)/2500000000,
  (1481614837 : ℚ)/500000000,
  (9684282789 : ℚ)/5000000000,
  (10994461679 : ℚ)/5000000000,
  (20547605617 : ℚ)/10000000000,
  (25655678993 : ℚ)/10000000000,
  (23041932983 : ℚ)/10000000000,
  (9601728591 : ℚ)/2500000000,
  (10905609353 : ℚ)/5000000000,
  (6462512911 : ℚ)/2000000000,
  (12368201959 : ℚ)/5000000000,
  (1735165569 : ℚ)/500000000,
  (14874417483 : ℚ)/10000000000,
  (15536769109 : ℚ)/5000000000,
  (21353324397 : ℚ)/10000000000,
  (7385278983 : ℚ)/2500000000,
  (3800476217 : ℚ)/2000000000,
  (10905609353 : ℚ)/5000000000,
  (24942067597 : ℚ)/10000000000,
  (8425503599 : ℚ)/5000000000,
  (3646468013 : ℚ)/2500000000,
  (23015952197 : ℚ)/10000000000,
  (10955231591 : ℚ)/10000000000,
  (2297962779 : ℚ)/1000000000,
  (6959369417 : ℚ)/5000000000,
  (5463640643 : ℚ)/2500000000,
  (4498289663 : ℚ)/2500000000,
  (6462512911 : ℚ)/2000000000,
  (8425503599 : ℚ)/5000000000,
  (6245232203 : ℚ)/2000000000,
  (16779632687 : ℚ)/10000000000,
  (27195826381 : ℚ)/10000000000,
  (12397348013 : ℚ)/10000000000,
  (23757864319 : ℚ)/10000000000,
  (254550387 : ℚ)/156250000,
  (4892638983 : ℚ)/2000000000,
  (4614049307 : ℚ)/2500000000,
  (12368201959 : ℚ)/5000000000,
  (3646468013 : ℚ)/2500000000,
  (16779632687 : ℚ)/10000000000,
  (28123267839 : ℚ)/10000000000,
  (1616293051 : ℚ)/625000000,
  (14131630919 : ℚ)/10000000000,
  (4382960627 : ℚ)/2000000000,
  (15542420639 : ℚ)/10000000000,
  (27170092067 : ℚ)/10000000000,
  (1481614837 : ℚ)/500000000,
  (1735165569 : ℚ)/500000000,
  (23015952197 : ℚ)/10000000000,
  (27195826381 : ℚ)/10000000000,
  (1616293051 : ℚ)/625000000,
  (20834590197 : ℚ)/5000000000,
  (21145239023 : ℚ)/10000000000,
  (8303700333 : ℚ)/2500000000,
  (26694845663 : ℚ)/10000000000,
  (1921378943 : ℚ)/625000000,
  (9684282789 : ℚ)/5000000000,
  (14874417483 : ℚ)/10000000000,
  (10955231591 : ℚ)/10000000000,
  (12397348013 : ℚ)/10000000000,
  (14131630919 : ℚ)/10000000000,
  (21145239023 : ℚ)/10000000000,
  (1892881157 : ℚ)/1000000000,
  (3419599691 : ℚ)/2000000000,
  (1720586053 : ℚ)/1000000000,
  (3742169501 : ℚ)/2000000000,
  (10994461679 : ℚ)/5000000000,
  (15536769109 : ℚ)/5000000000,
  (2297962779 : ℚ)/1000000000,
  (23757864319 : ℚ)/10000000000,
  (4382960627 : ℚ)/2000000000,
  (8303700333 : ℚ)/2500000000,
  (3419599691 : ℚ)/2000000000,
  (6918527683 : ℚ)/2000000000,
  (21518695071 : ℚ)/10000000000,
  (14453749847 : ℚ)/5000000000,
  (20547605617 : ℚ)/10000000000,
  (21353324397 : ℚ)/10000000000,
  (6959369417 : ℚ)/5000000000,
  (254550387 : ℚ)/156250000,
  (15542420639 : ℚ)/10000000000,
  (26694845663 : ℚ)/10000000000,
  (1720586053 : ℚ)/1000000000,
  (21518695071 : ℚ)/10000000000,
  (2638870083 : ℚ)/1250000000,
  (836560499 : ℚ)/500000000,
  (25655678993 : ℚ)/10000000000,
  (7385278983 : ℚ)/2500000000,
  (5463640643 : ℚ)/2500000000,
  (4892638983 : ℚ)/2000000000,
  (27170092067 : ℚ)/10000000000,
  (1921378943 : ℚ)/625000000,
  (3742169501 : ℚ)/2000000000,
  (14453749847 : ℚ)/5000000000,
  (836560499 : ℚ)/500000000,
  (39093678727 : ℚ)/10000000000]⟩

def cholL10q : Mat ℚ :=
 ⟨10, 10, [
  (1 : ℚ),
  (0 : ℚ),
  (0 : ℚ),
  (0 : ℚ),
  (0 : ℚ),
  (0 : ℚ),
  (0 : ℚ),
  (0 : ℚ),
  (0 : ℚ),
  (0 : ℚ),
  (23041932983 : ℚ)/28955668335,
  (1 : ℚ),
  (0 : ℚ),
  (0 : ℚ),
  (0 : ℚ),
  (0 : ℚ),
  (0 : ℚ),
  (0 : ℚ),
  (0 : ℚ),
  (0 : ℚ),
  (3800476217 : ℚ)/5791133667,
  (193706823355087047955 : ℚ)/581167198501668185651,
  (1 : ℚ),
  (0 : ℚ),
  (0 : ℚ),
  (0 : ℚ),
  (0 : ℚ),
  (0 : ℚ),
  (0 : ℚ),
  (0 : ℚ),
  (17993158652 : ℚ)/28955668335,
  (521034746495986247009 : ℚ)/581167198501668185651,
  (-554860191789464450463500817311 : ℚ)/5952235075635480599256549382347,
  (1 : ℚ),
  (0 : ℚ),
  (0 : ℚ),
  (0 : ℚ),
  (0 : ℚ),
  (0 : ℚ),
  (0 : ℚ),
  (18456197228 : ℚ)/28955668335,
  (290992648001596165406 : ℚ)/581167198501668185651,
  (-169651343295823295753150007538 : ℚ)/1984078358545160199752183127449,
  (-22502593470432748590575138357752737856587 : ℚ)/22759906527278702905666596218598587428747,
  (1 : ℚ),
  (0 : ℚ),
  (0 : ℚ),
  (0 : ℚ),
  (0 : ℚ),
  (0 : ℚ),
  (5926459348 : ℚ)/5791133667,
  (322072178830061776880 : ℚ)/581167198501668185651,
  (-80096615167222146010861191733 : ℚ)/5952235075635480599256549382347,
  (-7158792345734410677214509342778159372186 : ℚ)/22759906527278702905666596218598587428747,
  (2310348192530921330462668948614465352598171006742 : ℚ)/85518553456113613940604165220556392172130312259033,
  (1 : ℚ),
  (0 : ℚ),
  (0 : ℚ),
  (0 : ℚ),
  (0 : ℚ),
  (6456188526 : ℚ)/9651889445,
  (-15590490711043158369 : ℚ)/581167198501668185651,
  (-915964985892211673115657143000 : ℚ)/5952235075635480599256549382347,
  (4151363770880960238790867484642843500294 : ℚ)/22759906527278702905666596218598587428747,
  (59416858569310827134390113513292247651983722144093 : ℚ)/171037106912227227881208330441112784344260624518066,
  (149665634959638506469276877238706280242943745571809300321369 : ℚ)/410034256909801306537121747983743093510243926881679831155405,
  (1 : ℚ),
  (0 : ℚ),
  (0 : ℚ),
  (0 : ℚ),
  (21988923358 : ℚ)/28955668335,
  (393087768251995610116 : ℚ)/581167198501668185651,
  (779620887368152633777732667288 : ℚ)/1984078358545160199752183127449,
  (-10129804567730937219332516094296618399655 : ℚ)/22759906527278702905666596218598587428747,
  (-2692806918225987129767011001039316620535083845369 : ℚ)/85518553456113613940604165220556392172130312259033,
  (232098074202916126019359280764890002966538252375926447208482 : ℚ)/410034256909801306537121747983743093510243926881679831155405,
  (206879462846898704746123791739000987718593053044720177832962077506468 : ℚ)/301428035889675900053866351928010943502022057968407278689711611796251,
  (1 : ℚ),
  (0 : ℚ),
  (0 : ℚ),
  (1867964147 : ℚ)/2632333485,
  (144843227501167503484 : ℚ)/581167198501668185651,
  (-716617325893624680004101286415 : ℚ)/5952235075635480599256549382347,
  (-6409037187451980066736426838649636716987 : ℚ)/22759906527278702905666596218598587428747,
  (-13987867338272348745684183526405788486814843820580 : ℚ)/85518553456113613940604165220556392172130312259033,
  (44005778559672618587315975572806138579456303938850038626690 : ℚ)/82006851381960261307424349596748618702048785376335966231081,
  (362025146196160692331140150453803130444052786903509362450756840527720 : ℚ)/473672627826633557227504267315445768360320376807497152226689675679823,
  (-2085318112477320364700306837565510802303896760758444767191493686224209209639 : ℚ)/5651877933488093112203857101376599954542353310777411474143786046129855888606,
  (1 : ℚ),
  (0 : ℚ),
  (25655678993 : ℚ)/28955668335,
  (264226319182709487101 : ℚ)/581167198501668185651,
  (1148581423961506761403010891906 : ℚ)/5952235075635480599256549382347,
  (3118148160709431721160412401702324563412 : ℚ)/22759906527278702905666596218598587428747,
  (157844419229440648088655186839958500173459919280403 : ℚ)/171037106912227227881208330441112784344260624518066,
  (-48415652520156795884821640201245154789165462194385226603808 : ℚ)/410034256909801306537121747983743093510243926881679831155405,
  (-163645950412623940444472410895854815491380653798832228740399744964337 : ℚ)/3315708394786434900592529871208120378522242637652480065586827729758761,
  (340100233266619980103889175233455366911026297870432244012558509623574664573827 : ℚ)/293897652541380841834600569271583197636202372160425396655476874398752506207512,
  (-10856807032163179181807174802256158607746170438149806272934742881011086693125071966977 : ℚ)/10151493527565707512908712028584093932339539128488874697852087057000971959151735146230,
  (1 : ℚ)]⟩

def cholD10q : List ℚ := [
  (5791133667 : ℚ)/2000000000,
  (581167198501668185651 : ℚ)/289556683350000000000,
  (5952235075635480599256549382347 : ℚ)/5811671985016681856510000000000,
  (22759906527278702905666596218598587428747 : ℚ)/59522350756354805992565493823470000000000,
  (85518553456113613940604165220556392172130312259033 : ℚ)/113799532636393514528332981092992937143735000000000,
  (82006851381960261307424349596748618702048785376335966231081 : ℚ)/171037106912227227881208330441112784344260624518066000000000,
  (3315708394786434900592529871208120378522242637652480065586827729758761 : ℚ)/8200685138196026130742434959674861870204878537633596623108100000000000,
  (110211619703017815687975213476843699113575889560159523745803827899532189827817 : ℚ)/376785044862094875067332939910013679377527572460509098362139514745313750000000,
  (3045448058269712253872613608575228179701861738546662409355626117100291587745520543869 : ℚ)/62170657268369024234242428115142599499965886418551526215581646507428414774666000000000,
  (425337914755280134590746653190226216486704708431977011602768590186229724365276978236262619275741 : ℚ)/5278776634334167906712530254863728844816560346814214842883085269640505418758902276039600000000000]

def hchtRq : Mat ℚ :=
 ⟨3, 3, [
  (29 : ℚ)/250,
  (-43 : ℚ)/200,
  (-3253 : ℚ)/10000,
  (-43 : ℚ)/200,
  (319 : ℚ)/500,
  (8527 : ℚ)/10000,
  (-3253 : ℚ)/10000,
  (8527 : ℚ)/10000,
  (14659 : ℚ)/12500]⟩

def hchtDq : Mat ℚ :=
 ⟨3, 3, [
  (0 : ℚ),
  (0 : ℚ),
  (0 : ℚ),
  (0 : ℚ),
  (0 : ℚ),
  (0 : ℚ),
  (0 : ℚ),
  (0 : ℚ),
  (0 : ℚ)]⟩

set_option maxRecDepth 1000000

unseal Rat.mul Rat.add Rat.inv Rat.sub

theorem Mat.wf_build {α : Type} (r c : ℕ) (f : ℕ → ℕ → α) :
    (Mat.build r c f).wf := by
  simp [Mat.build, Mat.wf]

theorem Mat.rows_build {α : Type} (r c : ℕ) (f : ℕ → ℕ → α) :
    (Mat.build r c f).rows = r := rfl

theorem Mat.cols_build {α : Type} (r c : ℕ) (f : ℕ → ℕ → α) :
    (Mat.build r c f).cols = c := rfl

theorem rowMajor_lt {r c i j : ℕ} (hi : i < r) (hj : j < c) :
    i * c + j < r * c := by
  have hstep : i * c + j < (i + 1) * c := by
    rw [Nat.succ_mul]
    exact Nat.add_lt_add_left hj _
  exact lt_of_lt_of_le hstep (Nat.mul_le_mul_right c hi)

theorem Mat.get_build {α : Type} [Zero α] (r c : ℕ) (f : ℕ → ℕ → α)
    {i j : ℕ} (hi : i < r) (hj : j < c) :
    (Mat.build r c f).get i j = f i j := by
  have hc : 0 < c := Nat.lt_of_le_of_lt (Nat.zero_le j) hj
  have hidx : i * c + j < r * c := rowMajor_lt hi hj
  have hlen : ((List.range (r * c)).map (fun k => f (k / c) (k % c))).length = r * c := by
    simp
  unfold Mat.get Mat.build
  simp only
  rw [List.getD_eq_getElem _ _ (by simpa [hlen] using hidx)]
  simp only [List.getElem_map, List.getElem_range]
  have hdiv : (i * c + j) / c = i := by
    rw [Nat.mul_comm i c, Nat.mul_add_div hc, Nat.div_eq_of_lt hj, Nat.add_zero]
  have hmod : (i * c + j) % c = j := by
    rw [Nat.mul_comm i c, Nat.mul_add_mod, Nat.mod_eq_of_lt hj]
  rw [hdiv, hmod]

/-- Two well-formed matrices with the same dimensions and the same entries are
equal (the buffer is determined by the entries read off row-major). -/
theorem Mat.eq_of_get {α : Type} [Zero α] {A B : Mat α}
    (hwa : A.wf) (hwb : B.wf) (hr : A.rows = B.rows) (hc : A.cols = B.cols)
    (h : ∀ i j, i < A.rows → j < A.cols → A.get i j = B.get i j) : A = B := by
  obtain ⟨r, c, da⟩ := A
  obtain ⟨r', c', db⟩ := B
  simp only at hr hc
  subst hr; subst hc
  simp only [Mat.wf] at hwa hwb
  have hlen : da.length = db.length := by rw [hwa, hwb]
  congr 1
  apply List.ext_getElem hlen
  intro k hk hk'
  rcases Nat.eq_zero_or_pos c with hc0 | hcpos
  · exfalso; rw [hwa, hc0, Nat.mul_zero] at hk; exact Nat.not_lt_zero k hk
  · have hkrc : k < r * c := by rwa [hwa] at hk
    have hi : k / c < r := Nat.div_lt_of_lt_mul (by rwa [Nat.mul_comm] at hkrc)
    have hj : k % c < c := Nat.mod_lt _ hcpos
    have hrw : (k / c) * c + k % c = k := by
      rw [Nat.mul_comm]; exact Nat.div_add_mod k c
    have := h (k / c) (k % c) hi hj
    simp only [Mat.get, hrw] at this
    rwa [List.getD_eq_getElem _ _ hk, List.getD_eq_getElem _ _ hk'] at this

theorem detElimN_eq_zero {α : Type} [LinearOrderedField α] :
    ∀ (n : ℕ) (rows : List (List α)), elimHitsZeroN n rows = true → detElimN n rows = 0 := by
  intro n
  induction n with
  | zero => intro rows h; simp [elimHitsZeroN] at h
  | succ n ih =>
    intro rows h
    simp only [elimHitsZeroN, detElimN] at *
    by_cases hpv : ((swapRows rows (pivotIndex (rows.map (fun r => r.headD 0)))).headD []).headD (0 : α) = 0
    · rw [if_pos hpv]
    · rw [if_neg hpv] at h ⊢
      rw [ih _ h, mul_zero]

theorem cholL_of_lt (A : ℕ → ℕ → ℝ) {i j : ℕ} (h : i < j) : cholL A i j = 0 := by
  rw [cholL]
  simp [h]

theorem cholL_diag (A : ℕ → ℕ → ℝ) (j : ℕ) : cholL A j j = Real.sqrt (cholD A j) := by
  rw [cholL]
  simp [cholD, Finset.sum_attach (Finset.range j) (fun k => (cholL A j k) ^ 2)]

theorem cholL_of_gt (A : ℕ → ℕ → ℝ) {i j : ℕ} (h : j < i) :
    cholL A i j =
      (A i j - ∑ k in Finset.range j, cholL A i k * cholL A j k) / cholL A j j := by
  rw [cholL]
  have h1 : ¬ i < j := by omega
  have h2 : ¬ i = j := by omega
  simp [h1, h2, Finset.sum_attach (Finset.range j) (fun k => cholL A i k * cholL A j k)]

theorem cholD_nonneg_sqrt {A : ℕ → ℕ → ℝ} {j : ℕ} (hd : 0 < cholD A j) :
    cholL A j j ≠ 0 := by
  rw [cholL_diag]
  exact ne_of_gt (Real.sqrt_pos.mpr hd)

theorem chol_recon {A : ℕ → ℕ → ℝ} {i j : ℕ} (hd : 0 < cholD A j) (hij : j ≤ i) :
    ∑ k in Finset.range (j + 1), cholL A i k * cholL A j k = A i j := by
  rw [Finset.sum_range_succ]
  rcases eq_or_lt_of_le hij with heq | hlt
  · subst heq
    have hsq : cholL A j j * cholL A j j = cholD A j := by
      rw [cholL_diag]
      exact Real.mul_self_sqrt (le_of_lt hd)
    have hsum : ∑ k in Finset.range j, cholL A j k * cholL A j k
        = A j j - cholD A j := by
      have hpow : ∀ k ∈ Finset.range j, cholL A j k * cholL A j k = (cholL A j k) ^ 2 := by
        intro k _; ring
      rw [Finset.sum_congr rfl hpow]
      simp [cholD]
    rw [hsum, hsq]; ring
  · have hne : cholL A j j ≠ 0 := cholD_nonneg_sqrt hd
    rw [cholL_of_gt A hlt, div_mul_cancel₀ _ hne]
    ring

theorem chol_entry_le {A : ℕ → ℕ → ℝ} {n i j : ℕ} (hd : ∀ m, m < n → 0 < cholD A m)
    (hij : j ≤ i) (hj : j < n) :
    ∑ k in Finset.range n, cholL A i k * cholL A j k = A i j := by
  have hsub : Finset.range (j + 1) ⊆ Finset.range n := by
    intro x hx
    simp only [Finset.mem_range] at *
    omega
  rw [← Finset.sum_subset hsub ?van]
  · exact chol_recon (hd j hj) hij
  case van =>
    intro k hk hnk
    simp only [Finset.mem_range] at hk hnk
    have : j < k := by omega
    rw [cholL_of_lt A this, mul_zero]

theorem chol_entry_mul {A : ℕ → ℕ → ℝ} {n : ℕ}
    (hsym : ∀ i j, i < n → j < n → A i j = A j i)
    (hd : ∀ m, m < n → 0 < cholD A m) {i j : ℕ} (hi : i < n) (hj : j < n) :
    ∑ k in Finset.range n, cholL A i k * cholL A j k = A i j := by
  rcases le_total j i with h | h
  · exact chol_entry_le hd h hj
  · have := chol_entry_le hd h hi
    rw [hsym i j hi hj, ← this]
    apply Finset.sum_congr rfl
    intro k _
    ring

theorem quadform_expand (A M : ℕ → ℕ → ℝ) (w : ℕ → ℝ) (n r : ℕ)
    (hA : ∀ i j, i < n → j < n → A i j = ∑ k in Finset.range r, M i k * w k * M j k)
    (x : ℕ → ℝ) :
    ∑ i in Finset.range n, ∑ j in Finset.range n, x i * A i j * x j
      = ∑ k in Finset.range r, w k * (∑ i in Finset.range n, x i * M i k) ^ 2 := by
  have step1 :
      ∑ i in Finset.range n, ∑ j in Finset.range n, x i * A i j * x j
        = ∑ i in Finset.range n, ∑ j in Finset.range n, ∑ k in Finset.range r,
            w k * ((x i * M i k) * (x j * M j k)) := by
    apply Finset.sum_congr rfl
    intro i hi
    apply Finset.sum_congr rfl
    intro j hj
    simp only [Finset.mem_range] at hi hj
    rw [hA i j hi hj, Finset.mul_sum, Finset.sum_mul]
    apply Finset.sum_congr rfl
    intro k _
    ring
  rw [step1]
  have swapin : ∑ i in Finset.range n, ∑ j in Finset.range n, ∑ k in Finset.range r,
          w k * ((x i * M i k) * (x j * M j k))
        = ∑ i in Finset.range n, ∑ k in Finset.range r, ∑ j in Finset.range n,
            w k * ((x i * M i k) * (x j * M j k)) := by
    apply Finset.sum_congr rfl
    intro i _
    exact Finset.sum_comm
  have step2 :
      ∑ i in Finset.range n, ∑ j in Finset.range n, ∑ k in Finset.range r,
          w k * ((x i * M i k) * (x j * M j k))
        = ∑ k in Finset.range r, ∑ i in Finset.range n, ∑ j in Finset.range n,
            w k * ((x i * M i k) * (x j * M j k)) := by
    rw [swapin]
    exact Finset.sum_comm
  rw [step2]
  apply Finset.sum_congr rfl
  intro k _
  rw [sq, Finset.sum_mul_sum]
  rw [Finset.mul_sum]
  apply Finset.sum_congr rfl
  intro i _
  rw [Finset.mul_sum]

theorem colsum_single (M : ℕ → ℕ → ℝ) {n m : ℕ} (x : ℕ → ℝ)
    (hup : ∀ i j, i < j → j < n → M i j = 0) (hm : m < n)
    (hx_gt : ∀ i, m < i → x i = 0) :
    ∑ i in Finset.range n, x i * M i m = x m * M m m := by
  apply Finset.sum_eq_single m
  · intro i hi hne
    simp only [Finset.mem_range] at hi
    rcases lt_or_gt_of_ne hne with hlt | hgt
    · rw [hup i m hlt hm, mul_zero]
    · rw [hx_gt i hgt, zero_mul]
  · intro hmem
    exact absurd (Finset.mem_range.mpr hm) hmem

theorem quadform_pos_of_factor (A M : ℕ → ℕ → ℝ) (w : ℕ → ℝ) (n : ℕ)
    (hA : ∀ i j, i < n → j < n → A i j = ∑ k in Finset.range n, M i k * w k * M j k)
    (hup : ∀ i j, i < j → j < n → M i j = 0)
    (hdiag : ∀ i, i < n → M i i ≠ 0)
    (hw : ∀ k, k < n → 0 < w k)
    (x : ℕ → ℝ) (hsupp : ∀ i, n ≤ i → x i = 0) (hnz : ∃ i, i < n ∧ x i ≠ 0) :
    0 < ∑ i in Finset.range n, ∑ j in Finset.range n, x i * A i j * x j := by
  classical
  rw [quadform_expand A M w n n hA x]
  obtain ⟨i0, hi0, hx0⟩ := hnz
  set m := Nat.findGreatest (fun i => x i ≠ 0) n with hmdef
  have hxm : x m ≠ 0 :=
    Nat.findGreatest_spec (P := fun i => x i ≠ 0) (le_of_lt hi0) hx0
  have hmle : m ≤ n := Nat.findGreatest_le n
  have hmn : m < n := by
    rcases eq_or_lt_of_le hmle with h | h
    · exfalso; exact hxm (by rw [h]; exact hsupp n le_rfl)
    · exact h
  have hx_gt : ∀ i, m < i → x i = 0 := by
    intro i hi
    by_cases hin : i ≤ n
    · by_contra hxi
      exact Nat.findGreatest_is_greatest hi hin hxi
    · exact hsupp i (by omega)
  apply Finset.sum_pos'
  · intro k hk
    have hk2 := Finset.mem_range.mp hk
    have hwk := le_of_lt (hw k hk2)
    positivity
  · refine ⟨m, Finset.mem_range.mpr hmn, ?_⟩
    rw [colsum_single M x hup hmn hx_gt]
    have : x m * M m m ≠ 0 := mul_ne_zero hxm (hdiag m hmn)
    have hsq : 0 < (x m * M m m) ^ 2 := by positivity
    exact mul_pos (hw m hmn) hsq

theorem posdef_of_chol_success {A : ℕ → ℕ → ℝ} {n : ℕ}
    (hsym : ∀ i j, i < n → j < n → A i j = A j i)
    (hd : ∀ m, m < n → 0 < cholD A m)
    (x : ℕ → ℝ) (hsupp : ∀ i, n ≤ i → x i = 0) (hnz : ∃ i, i < n ∧ x i ≠ 0) :
    0 < ∑ i in Finset.range n, ∑ j in Finset.range n, x i * A i j * x j := by
  apply quadform_pos_of_factor A (cholL A) (fun _ => 1) n ?hA ?hup ?hdiag ?hw x hsupp hnz
  case hA =>
    intro i j hi hj
    rw [← chol_entry_mul hsym hd hi hj]
    apply Finset.sum_congr rfl
    intro k _
    ring
  case hup =>
    intro i j hij _
    exact cholL_of_lt A hij
  case hdiag =>
    intro i hi
    exact cholD_nonneg_sqrt (hd i hi)
  case hw =>
    intro k _
    exact one_pos

theorem cvec_of_gt (A : ℕ → ℕ → ℝ) {j m : ℕ} (h : j < m) : cvec A j m = 0 := by
  rw [cvec]
  simp [h]

theorem cvec_self (A : ℕ → ℕ → ℝ) (j : ℕ) : cvec A j j = 1 := by
  rw [cvec]
  simp

theorem cvec_of_lt (A : ℕ → ℕ → ℝ) {j m : ℕ} (h : m < j) :
    cvec A j m
      = -(∑ i in Finset.Ioc m j, cholL A i m * cvec A j i) / cholL A m m := by
  rw [cvec]
  have h1 : ¬ j < m := by omega
  have h2 : ¬ m = j := by omega
  simp only [h1, h2, if_false]
  rw [Finset.sum_attach (Finset.Ioc m j) (fun i => cholL A i m * cvec A j i)]

theorem cvec_colsum (A : ℕ → ℕ → ℝ) {j m : ℕ} (hm : m < j)
    (hLmm : cholL A m m ≠ 0) :
    ∑ i in Finset.Icc m j, cvec A j i * cholL A i m = 0 := by
  rw [← Finset.Ioc_insert_left (le_of_lt hm), Finset.sum_insert Finset.left_not_mem_Ioc]
  have hswap : ∑ i in Finset.Ioc m j, cvec A j i * cholL A i m
      = ∑ i in Finset.Ioc m j, cholL A i m * cvec A j i := by
    apply Finset.sum_congr rfl
    intro i _
    ring
  rw [hswap, cvec_of_lt A hm, div_mul_cancel₀ _ hLmm, neg_add_cancel]

theorem cvec_colsum_range (A : ℕ → ℕ → ℝ) {j m N : ℕ} (hm : m < j) (hj : j < N)
    (hLmm : cholL A m m ≠ 0) :
    ∑ i in Finset.range N, cvec A j i * cholL A i m = 0 := by
  have hsub : Finset.Icc m j ⊆ Finset.range N := by
    intro i hi
    simp only [Finset.mem_Icc, Finset.mem_range] at *
    omega
  rw [← Finset.sum_subset hsub ?van]
  · exact cvec_colsum A hm hLmm
  case van =>
    intro i hi hni
    simp only [Finset.mem_range] at hi
    simp only [Finset.mem_Icc, not_and_or, not_le] at hni
    rcases hni with h | h
    · rw [cholL_of_lt A h, mul_zero]
    · rw [cvec_of_gt A h, zero_mul]

theorem entry_decomp_le {A : ℕ → ℕ → ℝ} {n j : ℕ} (hj : j < n)
    (IH : ∀ k, k < j → 0 < cholD A k) {i p : ℕ} (hp : p ≤ i) (hi : i ≤ j) :
    A i p = (∑ k in Finset.range j, cholL A i k * cholL A p k)
      + (if i = j ∧ p = j then cholD A j else 0) := by
  rcases eq_or_lt_of_le (le_trans hp hi) with hpj | hpj
  · have hij : i = j := le_antisymm hi (by omega)
    subst hij
    have hpj2 : p = i := by omega
    subst hpj2
    have hpow : ∀ k ∈ Finset.range p, cholL A p k * cholL A p k = (cholL A p k) ^ 2 := by
      intro k _; ring
    rw [Finset.sum_congr rfl hpow, if_pos ⟨rfl, rfl⟩]
    simp [cholD]
  · have hrec := chol_recon (IH p hpj) hp
    have hsub : Finset.range (p + 1) ⊆ Finset.range j := by
      intro t ht
      simp only [Finset.mem_range] at *
      omega
    have hext : ∑ k in Finset.range (p + 1), cholL A i k * cholL A p k
        = ∑ k in Finset.range j, cholL A i k * cholL A p k := by
      apply Finset.sum_subset hsub
      intro k hk hnk
      simp only [Finset.mem_range] at hk hnk
      rw [cholL_of_lt A (show p < k by omega), mul_zero]
    have hpne : ¬ (i = j ∧ p = j) := by
      rintro ⟨_, h2⟩
      omega
    rw [if_neg hpne, ← hext, hrec, add_zero]

theorem entry_decomp {A : ℕ → ℕ → ℝ} {n j : ℕ}
    (hsym : ∀ i j, i < n → j < n → A i j = A j i) (hj : j < n)
    (IH : ∀ k, k < j → 0 < cholD A k) {i p : ℕ} (hi : i ≤ j) (hp : p ≤ j) :
    A i p = (∑ k in Finset.range j, cholL A i k * cholL A p k)
      + (if i = j ∧ p = j then cholD A j else 0) := by
  rcases le_total p i with h | h
  · exact entry_decomp_le hj IH h hi
  · rw [hsym i p (by omega) (by omega)]
    rw [entry_decomp_le hj IH h hp]
    have hcomm : ∑ k in Finset.range j, cholL A p k * cholL A i k
        = ∑ k in Finset.range j, cholL A i k * cholL A p k := by
      apply Finset.sum_congr rfl
      intro k _
      ring
    rw [hcomm]
    congr 1
    by_cases hc : i = j ∧ p = j
    · rw [if_pos hc, if_pos ⟨hc.2, hc.1⟩]
    · rw [if_neg hc, if_neg (fun hc2 => hc ⟨hc2.2, hc2.1⟩)]

theorem cholD_pos_of_posdef {A : ℕ → ℕ → ℝ} {n : ℕ}
    (hsym : ∀ i j, i < n → j < n → A i j = A j i)
    (hpd : ∀ x : ℕ → ℝ, (∀ i, n ≤ i → x i = 0) → (∃ i, i < n ∧ x i ≠ 0) →
      0 < ∑ i in Finset.range n, ∑ j in Finset.range n, x i * A i j * x j) :
    ∀ j, j < n → 0 < cholD A j := by
  intro j
  induction j using Nat.strong_induction_on with
  | _ j IH =>
  intro hj
  have IH2 : ∀ k, k < j → 0 < cholD A k := fun k hk => IH k hk (by omega)
  have hLkk : ∀ k, k < j → cholL A k k ≠ 0 :=
    fun k hk => cholD_nonneg_sqrt (IH2 k hk)
  have hQ := hpd (cvec A j) ?supp ?nz
  case supp =>
    intro i hi
    exact cvec_of_gt A (by omega)
  case nz =>
    exact ⟨j, hj, by rw [cvec_self]; exact one_ne_zero⟩
  -- restrict the quadratic form to indices at most j
  have hsubr : Finset.range (j + 1) ⊆ Finset.range n := by
    intro t ht
    simp only [Finset.mem_range] at *
    omega
  have hinner : ∀ i, ∑ p in Finset.range (j + 1), cvec A j i * A i p * cvec A j p
      = ∑ p in Finset.range n, cvec A j i * A i p * cvec A j p := by
    intro i
    apply Finset.sum_subset hsubr
    intro p hp hnp
    simp only [Finset.mem_range] at hp hnp
    rw [cvec_of_gt A (show j < p by omega), mul_zero]
  have houter : ∑ i in Finset.range (j + 1), ∑ p in Finset.range (j + 1),
        cvec A j i * A i p * cvec A j p
      = ∑ i in Finset.range n, ∑ p in Finset.range n,
        cvec A j i * A i p * cvec A j p := by
    rw [← Finset.sum_congr rfl (fun i _ => hinner i)]
    apply Finset.sum_subset hsubr
    intro i hi hni
    simp only [Finset.mem_range] at hi hni
    apply Finset.sum_eq_zero
    intro p _
    rw [cvec_of_gt A (show j < i by omega), zero_mul, zero_mul]
  -- split off the correction term using the entry decomposition
  have hsplit : ∑ i in Finset.range (j + 1), ∑ p in Finset.range (j + 1),
        cvec A j i * A i p * cvec A j p
      = (∑ i in Finset.range (j + 1), ∑ p in Finset.range (j + 1),
          cvec A j i * (∑ k in Finset.range j, cholL A i k * cholL A p k) * cvec A j p)
        + (∑ i in Finset.range (j + 1), ∑ p in Finset.range (j + 1),
          cvec A j i * (if i = j ∧ p = j then cholD A j else 0) * cvec A j p) := by
    rw [← Finset.sum_add_distrib]
    apply Finset.sum_congr rfl
    intro i hi
    rw [← Finset.sum_add_distrib]
    apply Finset.sum_congr rfl
    intro p hp
    simp only [Finset.mem_range] at hi hp
    rw [entry_decomp hsym hj IH2 (by omega) (by omega)]
    ring
  -- the factored part vanishes column by column
  have hfact : ∑ i in Finset.range (j + 1), ∑ p in Finset.range (j + 1),
        cvec A j i * (∑ k in Finset.range j, cholL A i k * cholL A p k) * cvec A j p
      = ∑ k in Finset.range j,
          (1 : ℝ) * (∑ i in Finset.range (j + 1), cvec A j i * cholL A i k) ^ 2 := by
    apply quadform_expand
      (fun i p => ∑ k in Finset.range j, cholL A i k * cholL A p k) (cholL A)
      (fun _ => 1) (j + 1) j
    intro i p _ _
    apply Finset.sum_congr rfl
    intro k _
    ring
  have hfact0 : ∑ i in Finset.range (j + 1), ∑ p in Finset.range (j + 1),
        cvec A j i * (∑ k in Finset.range j, cholL A i k * cholL A p k) * cvec A j p
      = 0 := by
    rw [hfact]
    apply Finset.sum_eq_zero
    intro k hk
    simp only [Finset.mem_range] at hk
    rw [cvec_colsum_range A hk (Nat.lt_succ_self j) (hLkk k hk)]
    ring
  -- the correction term is exactly the new diagonal value
  have hcorr : ∑ i in Finset.range (j + 1), ∑ p in Finset.range (j + 1),
        cvec A j i * (if i = j ∧ p = j then cholD A j else 0) * cvec A j p
      = cholD A j := by
    have hin : ∀ i ∈ Finset.range (j + 1),
        ∑ p in Finset.range (j + 1),
            cvec A j i * (if i = j ∧ p = j then cholD A j else 0) * cvec A j p
          = if i = j then cvec A j i * cholD A j * cvec A j j else 0 := by
      intro i _
      by_cases hij : i = j
      · subst hij
        have hterm : ∀ p ∈ Finset.range (i + 1),
            cvec A i i * (if i = i ∧ p = i then cholD A i else 0) * cvec A i p
              = if p = i then cvec A i i * cholD A i * cvec A i p else 0 := by
          intro p _
          by_cases hp : p = i
          · simp [hp]
          · simp [hp]
        rw [Finset.sum_congr rfl hterm,
            Finset.sum_ite_eq' (Finset.range (i + 1)) i
              (fun p => cvec A i i * cholD A i * cvec A i p)]
        simp
      · rw [if_neg hij]
        apply Finset.sum_eq_zero
        intro p _
        simp [hij]
    rw [Finset.sum_congr rfl hin,
        Finset.sum_ite_eq' (Finset.range (j + 1)) j
          (fun i => cvec A j i * cholD A j * cvec A j j)]
    simp [cvec_self]
  rw [← houter, hsplit, hfact0, hcorr, zero_add] at hQ
  exact hQ

theorem Mat.mul_rows {α : Type} [Zero α] [Mul α] [AddCommMonoid α] (A B : Mat α) :
    (A.mul B).rows = A.rows := rfl

theorem Mat.mul_cols {α : Type} [Zero α] [Mul α] [AddCommMonoid α] (A B : Mat α) :
    (A.mul B).cols = B.cols := rfl

theorem Mat.transpose_rows {α : Type} [Zero α] (A : Mat α) :
    A.transpose.rows = A.cols := rfl

theorem Mat.transpose_cols {α : Type} [Zero α] (A : Mat α) :
    A.transpose.cols = A.rows := rfl

theorem Mat.mul_get {α : Type} [Zero α] [Mul α] [AddCommMonoid α] (A B : Mat α)
    {i j : ℕ} (hi : i < A.rows) (hj : j < B.cols) :
    (A.mul B).get i j = ∑ k in Finset.range A.cols, A.get i k * B.get k j :=
  Mat.get_build _ _ _ hi hj

theorem Mat.transpose_get {α : Type} [Zero α] (A : Mat α)
    {i j : ℕ} (hi : i < A.cols) (hj : j < A.rows) :
    A.transpose.get i j = A.get j i :=
  Mat.get_build _ _ _ hi hj

theorem chol_spd_main (A : Mat ℝ) (hwf : A.wf) (hpd : A.PosDef) :
    ∃ L, A.chol = some L ∧ (∀ i j, i < j → j < L.cols → L.get i j = 0) ∧
      L.mul L.transpose = A := by
  obtain ⟨hsq, hsym, hq⟩ := hpd
  have hsucc : ∀ j, j < A.rows → 0 < cholD A.get j :=
    cholD_pos_of_posdef hsym hq
  refine ⟨Mat.build A.rows A.rows (fun i j => cholL A.get i j), ?_, ?_, ?_⟩
  · rw [Mat.chol, if_pos ⟨hsq, hsucc⟩]
  · intro i j hij hj
    rw [Mat.cols_build] at hj
    rw [Mat.get_build _ _ _ (by omega) hj]
    exact cholL_of_lt A.get hij
  · set L := Mat.build A.rows A.rows (fun i j => cholL A.get i j) with hL
    have hLr : L.rows = A.rows := Mat.rows_build _ _ _
    have hLc : L.cols = A.rows := Mat.cols_build _ _ _
    apply Mat.eq_of_get (by rw [Mat.mul]; exact Mat.wf_build _ _ _) hwf
    · rw [Mat.mul_rows, hLr]
    · rw [Mat.mul_cols, Mat.transpose_cols, hLr, hsq]
    · intro i j hi hj
      rw [Mat.mul_rows, hLr] at hi
      rw [Mat.mul_cols, Mat.transpose_cols, hLr] at hj
      rw [Mat.mul_get L L.transpose hi (by rw [Mat.transpose_cols, hLr]; exact hj), hLc]
      have hterm : ∀ k ∈ Finset.range A.rows,
          L.get i k * L.transpose.get k j
          = cholL A.get i k * cholL A.get j k := by
        intro k hk
        simp only [Finset.mem_range] at hk
        rw [Mat.transpose_get L (by rw [hLc]; exact hk) (by rw [hLr]; exact hj), hL,
            Mat.get_build _ _ _ hi hk, Mat.get_build _ _ _ hj hk]
      rw [Finset.sum_congr rfl hterm]
      exact chol_entry_mul hsym hsucc hi hj

theorem chol_none_main (A : Mat ℝ) (hsym : A.IsSymm) (hnpd : ¬ A.PosDef) :
    A.chol = none := by
  by_cases hc : A.rows = A.cols ∧ ∀ j, j < A.rows → 0 < cholD A.get j
  · exfalso
    apply hnpd
    exact ⟨hc.1, hsym, fun x hsupp hnz => posdef_of_chol_success hsym hc.2 x hsupp hnz⟩
  · rw [Mat.chol, if_neg hc]

theorem matCast_rows (A : Mat ℚ) : (matCast A).rows = A.rows := rfl

theorem matCast_cols (A : Mat ℚ) : (matCast A).cols = A.cols := rfl

theorem matCast_wf {A : Mat ℚ} (h : A.wf) : (matCast A).wf := by
  show (A.data.map (Rat.cast : ℚ → ℝ)).length = A.rows * A.cols
  rw [List.length_map]
  exact h

theorem matCast_get (A : Mat ℚ) (i j : ℕ) :
    (matCast A).get i j = ((A.get i j : ℚ) : ℝ) := by
  show (A.data.map (Rat.cast : ℚ → ℝ)).getD (i * A.cols + j) 0
    = ((A.data.getD (i * A.cols + j) 0 : ℚ) : ℝ)
  by_cases hidx : i * A.cols + j < A.data.length
  · rw [List.getD_eq_getElem _ _ (by rw [List.length_map]; exact hidx),
        List.getD_eq_getElem _ _ hidx, List.getElem_map]
  · rw [List.getD_eq_default _ _ (by rw [List.length_map]; exact Nat.le_of_not_lt hidx),
        List.getD_eq_default _ _ (Nat.le_of_not_lt hidx), Rat.cast_zero]

theorem posdef_of_ldl (Aq Lq : Mat ℚ) (Dq : List ℚ)
    (hsq : Aq.rows = Aq.cols) (hn : Lq.rows = Aq.rows)
    (hok : ldlOK Aq Lq Dq) (hshape : ldlShapeOK Lq Dq) :
    (matCast Aq).PosDef := by
  obtain ⟨hup, hdiag, hD⟩ := hshape
  have hA : ∀ i j, i < Aq.rows → j < Aq.rows →
      (matCast Aq).get i j
        = ∑ k in Finset.range Aq.rows,
            ((Lq.get i k : ℚ) : ℝ) * ((Dq.getD k 0 : ℚ) : ℝ) * ((Lq.get j k : ℚ) : ℝ) := by
    intro i j hi hj
    rw [matCast_get, hok i hi j hj]
    push_cast
    rfl
  refine ⟨hsq, ?_, ?_⟩
  · intro i j hi hj
    rw [matCast_rows] at hi hj
    rw [hA i j hi hj, hA j i hj hi]
    apply Finset.sum_congr rfl
    intro k _
    ring
  · intro x hsupp hnz
    rw [matCast_rows] at *
    apply quadform_pos_of_factor ((matCast Aq).get)
      (fun i k => ((Lq.get i k : ℚ) : ℝ)) (fun k => ((Dq.getD k 0 : ℚ) : ℝ))
      Aq.rows hA ?hup ?hdiag ?hw x hsupp hnz
    case hup =>
      intro i k hik hk
      show ((Lq.get i k : ℚ) : ℝ) = 0
      rw [hup i (by omega) k (by omega) hik]
      norm_num
    case hdiag =>
      intro i hi
      show ((Lq.get i i : ℚ) : ℝ) ≠ 0
      rw [hdiag i (by omega)]
      norm_num
    case hw =>
      intro k hk
      show (0 : ℝ) < ((Dq.getD k 0 : ℚ) : ℝ)
      have := hD k (by omega)
      exact_mod_cast this

theorem foldr_abs_zero {α : Type} [LinearOrderedField α] {l : List α}
    (h : ∀ x ∈ l, x = 0) : l.foldr (fun x s => |x| + s) 0 = 0 := by
  induction l with
  | nil => rfl
  | cons a t ih =>
    simp only [List.foldr_cons]
    rw [h a (List.mem_cons_self a t), ih (fun x hx => h x (List.mem_cons_of_mem a hx))]
    simp

theorem sum_abs_build_zero {α : Type} [LinearOrderedField α] (r c : ℕ)
    (f : ℕ → ℕ → α) (h : ∀ i j, f i j = 0) :
    (Mat.build r c f).sum_abs = 0 := by
  apply foldr_abs_zero
  intro x hx
  simp only [Mat.build, List.mem_map] at hx
  obtain ⟨k, _, hk⟩ := hx
  rw [← hk, h]

theorem chol_roundtrip_of_ldl (Aq Lq : Mat ℚ) (Dq : List ℚ)
    (hwfq : Aq.wf) (hsq : Aq.rows = Aq.cols) (hn : Lq.rows = Aq.rows)
    (hok : ldlOK Aq Lq Dq) (hshape : ldlShapeOK Lq Dq) :
    ∃ L D, (matCast Aq).chol = some L ∧
      Mat.sub (matCast Aq) (L.mul L.transpose) = some D ∧
      D.sum_abs ≤ (1 : ℝ)/10000 := by
  obtain ⟨L, hchol, _, hprod⟩ :=
    chol_spd_main (matCast Aq) (matCast_wf hwfq) (posdef_of_ldl Aq Lq Dq hsq hn hok hshape)
  refine ⟨L, Mat.build (matCast Aq).rows (matCast Aq).cols
      (fun i j => (matCast Aq).get i j - (matCast Aq).get i j), hchol, ?_, ?_⟩
  · rw [hprod]
    unfold Mat.sub
    rw [if_pos ⟨rfl, rfl⟩]
  · rw [sum_abs_build_zero _ _ _ (fun i j => sub_self _)]
    norm_num

theorem det_zero_of_zero_pivot_main {α : Type} [LinearOrderedField α] (A : Mat α)
    (h : A.detHitsZeroPivot) : A.det = 0 := by
  obtain ⟨h3, hz⟩ := h
  unfold Mat.det
  rw [if_neg (by omega), if_neg (by omega)]
  exact detElimN_eq_zero _ _ hz

theorem add_sub_roundtrip_main {α : Type} [LinearOrderedField α] (A : Mat α)
    (hwf : A.wf) :
    (Mat.add A A).bind (fun S => Mat.sub S A) = some A := by
  unfold Mat.add
  rw [if_pos ⟨rfl, rfl⟩]
  show Mat.sub (Mat.build A.rows A.cols (fun i j => A.get i j + A.get i j)) A = some A
  unfold Mat.sub
  rw [if_pos ⟨rfl, rfl⟩]
  congr 1
  refine Mat.eq_of_get (Mat.wf_build _ _ _) hwf rfl rfl ?_
  intro i j hi hj
  have hi2 : i < A.rows := hi
  have hj2 : j < A.cols := hj
  simp only [Mat.rows_build, Mat.cols_build] at hi hj ⊢
  rw [Mat.get_build _ _ _ hi2 hj2, Mat.get_build _ _ _ hi2 hj2]
  ring

theorem transpose_transpose_main {α : Type} [LinearOrderedField α] (A : Mat α)
    (hwf : A.wf) : A.transpose.transpose = A := by
  refine Mat.eq_of_get (Mat.wf_build _ _ _) hwf rfl rfl ?_
  intro i j hi hj
  have h1 : A.transpose.transpose.get i j = A.transpose.get j i :=
    Mat.transpose_get A.transpose hi hj
  have h2 : A.transpose.get j i = A.get i j := Mat.transpose_get A hj hi
  exact h1.trans h2

theorem hcht_main {α : Type} [LinearOrderedField α] (H C : Mat α)
    (hdim : H.cols = C.rows) (hsq : C.rows = C.cols)
    (hsymC : ∀ k, k < C.rows → ∀ l, l < C.rows → C.get k l = C.get l k) :
    ∃ R, multiply_HCHt H C = some R ∧ R.rows = H.rows ∧ R.cols = H.rows ∧
      ∀ i j, i < R.rows → j < R.rows → R.get i j = R.get j i := by
  refine ⟨Mat.build H.rows H.rows (fun i j =>
      ∑ k in Finset.range H.cols, ∑ l in Finset.range H.cols,
        H.get i k * C.get k l * H.get j l), ?_, rfl, rfl, ?_⟩
  · unfold multiply_HCHt
    rw [if_pos ⟨hdim, hsq⟩]
  · intro i j hi hj
    rw [Mat.rows_build] at hi hj
    rw [Mat.get_build _ _ _ hi hj, Mat.get_build _ _ _ hj hi]
    rw [Finset.sum_comm]
    apply Finset.sum_congr rfl
    intro k hk
    apply Finset.sum_congr rfl
    intro l hl
    simp only [Finset.mem_range] at hk hl
    rw [hsymC l (by omega) k (by omega)]
    ring

theorem hcht_scalar_main {α : Type} [LinearOrderedField α] (H C : Mat α)
    (h1 : H.rows = 1) (h2 : H.cols = 2) (h3 : C.rows = 2) (h4 : C.cols = 2) :
    |multiply_HCHt_scalar H C - ((H.mul C).mul H.transpose).get 0 0| ≤ 1/10000 := by
  have e1 : ((H.mul C).mul H.transpose).get 0 0
      = ∑ k in Finset.range C.cols, (H.mul C).get 0 k * H.transpose.get k 0 := by
    rw [Mat.mul_get _ _ (by rw [Mat.mul_rows, h1]; omega)
          (by rw [Mat.transpose_cols, h1]; omega), Mat.mul_cols]
  have e2 : ∀ k, k < C.cols → (H.mul C).get 0 k
      = ∑ l in Finset.range H.cols, H.get 0 l * C.get l k := by
    intro k hk
    rw [Mat.mul_get _ _ (by omega) hk]
  have e3 : ∀ k, k < H.cols → H.transpose.get k 0 = H.get 0 k := by
    intro k hk
    rw [Mat.transpose_get _ hk (by omega)]
  rw [e1]
  have e4 : ∑ k in Finset.range C.cols, (H.mul C).get 0 k * H.transpose.get k 0
      = ∑ k in Finset.range C.cols,
          (∑ l in Finset.range H.cols, H.get 0 l * C.get l k) * H.get 0 k := by
    apply Finset.sum_congr rfl
    intro k hk
    simp only [Finset.mem_range] at hk
    rw [e2 k hk, e3 k (by omega)]
  rw [e4]
  unfold multiply_HCHt_scalar
  rw [h2, h4]
  have hzero : (∑ k in Finset.range 2, ∑ l in Finset.range 2,
        H.get 0 k * C.get k l * H.get 0 l)
      - (∑ k in Finset.range 2,
          (∑ l in Finset.range 2, H.get 0 l * C.get l k) * H.get 0 k) = 0 := by
    simp only [Finset.sum_range_succ, Finset.sum_range_zero]
    ring
  rw [hzero]
  simp

/-- C3: for each calibration matrix, `det` returns the reference value within
`1e-4` absolute error — the 2×2 matrix gives `-0.13`, the 3×3 matrix gives
`0.476380435871666`, and the 4×4 matrix gives `-6.29527837425056`. -/
theorem C3_det_calibration :
    |detA2q.det - (-13 : ℚ)/100| ≤ (1 : ℚ)/10000 ∧
    |detA3q.det - (476380435871666 : ℚ)/1000000000000000| ≤ (1 : ℚ)/10000 ∧
    |detA4q.det - (-629527837425056 : ℚ)/100000000000000| ≤ (1 : ℚ)/10000 := by
  refine ⟨by decide, by decide, by decide⟩

/-- C4: for the 3×3 and 4×4 calibration matrices, the determinant computed
through the fixed-size code path and through the dynamic-size code path agree
to within `1e-4`. -/
theorem C4_det_fixed_dyn_agreement :
    |detFix detA3f - detA3q.det| ≤ (1 : ℚ)/10000 ∧
    |detFix detA4f - detA4q.det| ≤ (1 : ℚ)/10000 := by
  refine ⟨by decide, by decide⟩

/-- C8: on a square matrix where the Gaussian elimination meets a pivot of
magnitude below the epsilon (exactly zero in this exact-arithmetic model),
`det` returns exactly zero — a total function, no error and no division
blow-up. -/
theorem C8_det_zero_on_zero_pivot (A : Mat ℚ) (hsq : A.rows = A.cols)
    (h : A.detHitsZeroPivot) : A.det = 0 :=
  det_zero_of_zero_pivot_main A h

/-- Witness for C8 at the singular 3×3 matrix with zero first column. -/
theorem C8_det_zero_on_zero_pivot_witness :
    singular3q.rows = singular3q.cols ∧ singular3q.detHitsZeroPivot ∧
      singular3q.det = 0 := by
  have h : singular3q.detHitsZeroPivot := ⟨by decide, by decide⟩
  exact ⟨rfl, h, C8_det_zero_on_zero_pivot singular3q rfl h⟩

/-- C5: `multiply_HCHt` on the calibration input (`H` 3×2, `C` 2×2 SPD)
matches the literal reference 3×3 matrix within an absolute-sum error of
`1e-4`; in general the result for an `m×n` H and `n×n` C is `m×m`. -/
theorem C5_hcht_correctness :
    (∃ R D, multiply_HCHt hchtHq hchtCq = some R ∧ Mat.sub hchtRrealq R = some D ∧
      D.sum_abs ≤ (1 : ℚ)/10000) ∧
    ∀ H C : Mat ℚ, H.cols = C.rows → C.rows = C.cols →
      ∃ R, multiply_HCHt H C = some R ∧ R.rows = H.rows ∧ R.cols = H.rows := by
  constructor
  · refine ⟨_, _, rfl, rfl, by decide⟩
  · intro H C hdim hsq
    refine ⟨Mat.build H.rows H.rows (fun i j =>
        ∑ k in Finset.range H.cols, ∑ l in Finset.range H.cols,
          H.get i k * C.get k l * H.get j l), ?_, rfl, rfl⟩
    unfold multiply_HCHt
    rw [if_pos ⟨hdim, hsq⟩]

/-- Witness for the general dimension clause of C5 at the calibration input. -/
theorem C5_hcht_correctness_witness :
    hchtHq.cols = hchtCq.rows ∧ hchtCq.rows = hchtCq.cols ∧
    ∃ R, multiply_HCHt hchtHq hchtCq = some R ∧ R.rows = hchtHq.rows ∧
      R.cols = hchtHq.rows :=
  ⟨rfl, rfl, C5_hcht_correctness.2 hchtHq hchtCq rfl rfl⟩

/-- C6: for a 1×2 row vector `H` and 2×2 matrix `C`, the scalar returned by
`multiply_HCHt_scalar` equals, within `1e-4`, the `(0,0)` entry of
`H · C · Hᵗ` computed by generic matrix multiplication. -/
theorem C6_hcht_scalar_agreement (H C : Mat ℚ) (h1 : H.rows = 1)
    (h2 : H.cols = 2) (h3 : C.rows = 2) (h4 : C.cols = 2) :
    |multiply_HCHt_scalar H C - ((H.mul C).mul H.transpose).get 0 0|
      ≤ (1 : ℚ)/10000 :=
  hcht_scalar_main H C h1 h2 h3 h4

/-- Witness for C6 at the data of test `HCHt_scalar_1x2_2x2_2x1`. -/
theorem C6_hcht_scalar_agreement_witness :
    hchtH1q.rows = 1 ∧ hchtH1q.cols = 2 ∧ hchtCq.rows = 2 ∧ hchtCq.cols = 2 ∧
    |multiply_HCHt_scalar hchtH1q hchtCq -
      ((hchtH1q.mul hchtCq).mul hchtH1q.transpose).get 0 0| ≤ (1 : ℚ)/10000 :=
  ⟨rfl, rfl, rfl, rfl, C6_hcht_scalar_agreement hchtH1q hchtCq rfl rfl rfl rfl⟩

/-- C9: for every well-formed matrix `A`, `(A + A) - A = A`, and transpose is
an involution, `transpose (transpose A) = A`. -/
theorem C9_add_transpose_laws (A : Mat ℚ) (hwf : A.wf) :
    (Mat.add A A).bind (fun S => Mat.sub S A) = some A ∧
      A.transpose.transpose = A :=
  ⟨add_sub_roundtrip_main A hwf, transpose_transpose_main A hwf⟩

/-- Witness for C9 at the 2×2 determinant calibration matrix. -/
theorem C9_add_transpose_laws_witness :
    detA2q.wf ∧
    ((Mat.add detA2q detA2q).bind (fun S => Mat.sub S detA2q) = some detA2q ∧
      detA2q.transpose.transpose = detA2q) :=
  ⟨by decide, C9_add_transpose_laws detA2q (by decide)⟩

/-- C10: for every `m×n` matrix `H` and symmetric `n×n` matrix `C`, the
matrix returned by `multiply_HCHt` is symmetric. -/
theorem C10_hcht_symmetric (H C : Mat ℚ) (hdim : H.cols = C.rows)
    (hsq : C.rows = C.cols)
    (hsymC : ∀ k, k < C.rows → ∀ l, l < C.rows → C.get k l = C.get l k) :
    ∃ R, multiply_HCHt H C = some R ∧
      ∀ i j, i < R.rows → j < R.rows → R.get i j = R.get j i := by
  obtain ⟨R, h1, _, _, h4⟩ := hcht_main H C hdim hsq hsymC
  exact ⟨R, h1, h4⟩

/-- Witness for C10 at the data of test `HCHt_3x2_2x2_2x3`. -/
theorem C10_hcht_symmetric_witness :
    hchtHq.cols = hchtCq.rows ∧ hchtCq.rows = hchtCq.cols ∧
    (∀ k, k < hchtCq.rows → ∀ l, l < hchtCq.rows →
      hchtCq.get k l = hchtCq.get l k) ∧
    ∃ R, multiply_HCHt hchtHq hchtCq = some R ∧
      ∀ i j, i < R.rows → j < R.rows → R.get i j = R.get j i := by
  have hs : ∀ k, k < hchtCq.rows → ∀ l, l < hchtCq.rows →
      hchtCq.get k l = hchtCq.get l k := by decide
  exact ⟨rfl, rfl, hs, C10_hcht_symmetric hchtHq hchtCq rfl rfl hs⟩

/-- C1: for every well-formed square SPD matrix `A`, `chol(A)` succeeds and
returns a factor `L` that is lower-triangular (every stored entry strictly
above the diagonal is zero) and satisfies `L · Lᵗ = A` exactly. -/
theorem C1_chol_spd_factorization (A : Mat ℝ) (hwf : A.wf) (hpd : A.PosDef) :
    ∃ L, A.chol = some L ∧ (∀ i j, i < j → j < L.cols → L.get i j = 0) ∧
      L.mul L.transpose = A :=
  chol_spd_main A hwf hpd

/-- Witness for C1 at the 2×2 identity matrix. -/
theorem C1_chol_spd_factorization_witness :
    (matCast id2q).wf ∧ (matCast id2q).PosDef ∧
    ∃ L, (matCast id2q).chol = some L ∧
      (∀ i j, i < j → j < L.cols → L.get i j = 0) ∧
      L.mul L.transpose = matCast id2q := by
  have hwf : (matCast id2q).wf := matCast_wf (by decide)
  have hpd : (matCast id2q).PosDef :=
    posdef_of_ldl id2q id2q id2Dq rfl rfl (by decide) (by decide)
  exact ⟨hwf, hpd, C1_chol_spd_factorization (matCast id2q) hwf hpd⟩

/-- C2: for each SPD Cholesky test input (2×2, 3×3 and 10×10), `chol`
succeeds and the reconstruction `L · Lᵗ` matches the input with an
element-wise absolute-sum error of at most `1e-4` (here: exactly zero). -/
theorem C2_chol_roundtrip_tests :
    (∃ L D, (matCast cholA2q).chol = some L ∧
      Mat.sub (matCast cholA2q) (L.mul L.transpose) = some D ∧
      D.sum_abs ≤ (1 : ℝ)/10000) ∧
    (∃ L D, (matCast cholA3q).chol = some L ∧
      Mat.sub (matCast cholA3q) (L.mul L.transpose) = some D ∧
      D.sum_abs ≤ (1 : ℝ)/10000) ∧
    (∃ L D, (matCast cholA10q).chol = some L ∧
      Mat.sub (matCast cholA10q) (L.mul L.transpose) = some D ∧
      D.sum_abs ≤ (1 : ℝ)/10000) :=
  ⟨chol_roundtrip_of_ldl cholA2q cholL2q cholD2q (by decide) rfl rfl
      (by decide) (by decide),
   chol_roundtrip_of_ldl cholA3q cholL3q cholD3q (by decide) rfl rfl
      (by decide) (by decide),
   chol_roundtrip_of_ldl cholA10q cholL10q cholD10q (by decide) rfl rfl
      (by decide) (by decide)⟩

/-- C7 counterexample: the claim asserts every non-SPD input (including
non-symmetric ones) is rejected; but `chol` reads only the lower triangle, so
this non-symmetric matrix — whose lower triangle agrees with the identity —
is factored without any error. -/
theorem C7_nonsym_counterexample :
    (matCast nonsymAq).rows = (matCast nonsymAq).cols ∧
    (matCast nonsymAq).get 0 1 ≠ (matCast nonsymAq).get 1 0 ∧
    (matCast nonsymAq).chol ≠ none := by
  have q00 : nonsymAq.get 0 0 = 1 := rfl
  have q10 : nonsymAq.get 1 0 = 0 := rfl
  have q11 : nonsymAq.get 1 1 = 1 := rfl
  have g00 : (matCast nonsymAq).get 0 0 = 1 := by rw [matCast_get, q00]; norm_num
  have g10 : (matCast nonsymAq).get 1 0 = 0 := by rw [matCast_get, q10]; norm_num
  have g11 : (matCast nonsymAq).get 1 1 = 1 := by rw [matCast_get, q11]; norm_num
  have hd0 : cholD (matCast nonsymAq).get 0 = 1 := by
    unfold cholD
    rw [Finset.sum_range_zero, g00, sub_zero]
  have hL10 : cholL (matCast nonsymAq).get 1 0 = 0 := by
    rw [cholL_of_gt _ (by omega), Finset.sum_range_zero, g10, sub_zero, zero_div]
  have hd1 : cholD (matCast nonsymAq).get 1 = 1 := by
    unfold cholD
    rw [Finset.sum_range_one, hL10, g11]
    norm_num
  have hcond : (matCast nonsymAq).rows = (matCast nonsymAq).cols ∧
      ∀ j, j < (matCast nonsymAq).rows → 0 < cholD (matCast nonsymAq).get j := by
    refine ⟨rfl, ?_⟩
    intro j hj
    rw [show (matCast nonsymAq).rows = 2 from rfl] at hj
    interval_cases j
    · rw [hd0]; norm_num
    · rw [hd1]; norm_num
  refine ⟨rfl, ?_, ?_⟩
  · rw [matCast_get, matCast_get]
    rw [show nonsymAq.get 0 1 = 5 from rfl, show nonsymAq.get 1 0 = 0 from rfl]
    norm_num
  · rw [Mat.chol, if_pos hcond]
    simp

/-- C7 amended: for every symmetric square input that is not positive
definite, `chol` reports the distinct Non-Positive-Definite error (`none`) —
never a silent NaN or garbage factor; non-symmetric inputs are exempt because
only the lower triangle is read. -/
theorem C7_symm_indefinite_rejected (A : Mat ℝ) (hsym : A.IsSymm)
    (hnpd : ¬ A.PosDef) : A.chol = none :=
  chol_none_main A hsym hnpd

/-- Witness for the amended C7 at the negated 2×2 identity. -/
theorem C7_symm_indefinite_rejected_witness :
    (matCast negIdq).IsSymm ∧ ¬ (matCast negIdq).PosDef ∧
      (matCast negIdq).chol = none := by
  have hq : ∀ i, i < 2 → ∀ j, j < 2 → negIdq.get i j = negIdq.get j i := by decide
  have hsym : (matCast negIdq).IsSymm := by
    intro i j hi hj
    rw [matCast_rows] at hi hj
    rw [matCast_get, matCast_get, hq i hi j hj]
  have g00 : (matCast negIdq).get 0 0 = -1 := by
    rw [matCast_get, show negIdq.get 0 0 = -1 from rfl]
    norm_num
  have hnpd : ¬ (matCast negIdq).PosDef := by
    rintro ⟨_, _, hqf⟩
    have hval := hqf (fun i => if i = 0 then 1 else 0) ?supp ?nz
    case supp =>
      intro i hi
      rw [show (matCast negIdq).rows = 2 from rfl] at hi
      have : i ≠ 0 := by omega
      simp [this]
    case nz =>
      refine ⟨0, ?_, by norm_num⟩
      rw [show (matCast negIdq).rows = 2 from rfl]
      omega
    have hcomp : ∑ i in Finset.range (matCast negIdq).rows,
        ∑ j in Finset.range (matCast negIdq).rows,
          (if i = 0 then (1 : ℝ) else 0) * (matCast negIdq).get i j *
            (if j = 0 then (1 : ℝ) else 0)
        = -1 := by
      rw [show (matCast negIdq).rows = 2 from rfl]
      rw [Finset.sum_range_succ, Finset.sum_range_succ, Finset.sum_range_zero,
          Finset.sum_range_succ, Finset.sum_range_succ, Finset.sum_range_zero,
          Finset.sum_range_succ, Finset.sum_range_succ, Finset.sum_range_zero]
      rw [g00]
      norm_num
    rw [hcomp] at hval
    linarith
  exact ⟨hsym, hnpd, C7_symm_indefinite_rejected (matCast negIdq) hsym hnpd⟩
